import Mathlib

/-!
Shallow embedding of the Go package `mutableware` (erinpentecost/mutableware):
a mutable middleware container.  Pure Go functions become Lean functions;
the container's mutable state becomes explicit state passing on
`ContainerState`.  Go's `uint64` next-ID counter is `Nat` reduced modulo
`2 ^ 64` where it is incremented.  `context.Context` is modelled twice:

* `Ctx` — the visible handler-info stack attached to a context (value level),
  used by the chain-compilation model; and
* the `SliceModel` namespace — Go slices with explicit backing arrays and
  capacities, needed to reason about `append` aliasing in
  `contextWithHandlerInfo` (ctx.go).
-/

namespace Mutableware

/-- `HandlerInfo` (mutableware.go): metadata for a handler, an ID
(Go `uint64`, modelled as `Nat`) plus an optional name. -/
structure HandlerInfo where
  ID : Nat
  Name : String
deriving DecidableEq

/-- `HandlerInfo.String` (mutableware.go): `"<id>(<name>)"` when a name is
set, otherwise `"<id>"`. -/
def infoString (h : HandlerInfo) : String :=
  if h.Name ≠ "" then Nat.repr h.ID ++ "(" ++ h.Name ++ ")"
  else Nat.repr h.ID

/-- Go error values as this package builds them.  `base n msg` is a distinct
error identity made by `errors.New` or a plain `fmt.Errorf` (`n` models the
allocation identity that `errors.Is` compares); `wrapHandler s i c` is
`fmt.Errorf("%w handler=%s %w", s, i, c)` as produced in `buildHandlers`. -/
inductive GoError where
  | base : Nat → String → GoError
  | wrapHandler : GoError → HandlerInfo → GoError → GoError
deriving DecidableEq

/-- `ErrHandle = errors.New("handleError")` (mutableware.go). -/
def ErrHandle : GoError := GoError.base 0 "handleError"

/-- `errors.Is(e, target)`: `e` matches `target` directly, or through the
unwrap tree (a `fmt.Errorf` with two `%w` verbs unwraps to both wrapped
errors). -/
def errorIs : GoError → GoError → Bool
  | GoError.base n m, t => GoError.base n m == t
  | GoError.wrapHandler s i c, t =>
      GoError.wrapHandler s i c == t || errorIs s t || errorIs c t

/-- `err.Error()`: the message, following the `fmt.Errorf` format string
`"%w handler=%s %w"` used in `buildHandlers`. -/
def errMessage : GoError → String
  | GoError.base _ m => m
  | GoError.wrapHandler s i c =>
      errMessage s ++ " handler=" ++ infoString i ++ " " ++ errMessage c

/-- Visible-value model of `context.Context` for the chain: `none` when no
handler-info stack is attached (e.g. `context.Background()`), otherwise the
attached stack.  This abstracts a context to the elements readable through
its stored slice; backing-array aliasing is treated in `SliceModel`. -/
abbrev Ctx := Option (List HandlerInfo)

/-- `contextWithHandlerInfo` (ctx.go), at the visible-value level: append
`info` to the parent's stack, or start a fresh one-element stack. -/
def contextWithHandlerInfo (parent : Ctx) (info : HandlerInfo) : Ctx :=
  match parent with
  | some stack => some (stack ++ [info])
  | none => some [info]

/-- `GetHandlerInfoFromContext` (ctx.go): the attached stack, or an empty
sequence when none is attached. -/
def GetHandlerInfoFromContext (ctx : Ctx) : List HandlerInfo :=
  match ctx with
  | some stack => stack
  | none => []

/-- `CurriedHandlerFunc[Request, Response]` (mutableware.go). -/
abbrev CurriedHandlerFunc (Req Res : Type) := Ctx → Req → Res × Option GoError

/-- `HandlerFunc` / the `Handle` method of the `Handler` interface
(mutableware.go): receives the context, the request, and the continuation. -/
abbrev HandlerFunc (Req Res : Type) :=
  Ctx → Req → CurriedHandlerFunc Req Res → Res × Option GoError

/-- `identifiedHandler` (mutableware.go): a handler paired with its info. -/
structure IdentifiedHandler (Req Res : Type) where
  handle : HandlerFunc Req Res
  info : HandlerInfo

/-- `nilCurriedHandlerFunc` (mutableware.go): zero-value response, nil
error.  The Go zero value of `Response` is the `Inhabited` default. -/
def nilCurriedHandlerFunc (Req Res : Type) [Inhabited Res] : CurriedHandlerFunc Req Res :=
  fun _ _ => (default, none)

/-- `nilHandlerFunc` (ctx.go counterpart file): pure pass-through handler
that just invokes its continuation. -/
def nilHandlerFunc {Req Res : Type} : HandlerFunc Req Res :=
  fun cx msg next => next cx msg

/-- One iteration of the loop body of `buildHandlers` (mutableware.go):
wrap the composed continuation `prevHandler` with one handler.  The wrapper
extends the context with the handler's info, runs the handler, and tags a
returned error with `ErrHandle` plus the handler's identity unless it is
already so tagged. -/
def wrapOne {Req Res} (ih : IdentifiedHandler Req Res)
    (prevHandler : CurriedHandlerFunc Req Res) : CurriedHandlerFunc Req Res :=
  fun cx msg =>
    match ih.handle (contextWithHandlerInfo cx ih.info) msg prevHandler with
    | (out, some e) =>
        if errorIs e ErrHandle then (out, some e)
        else (out, some (GoError.wrapHandler ErrHandle ih.info e))
    | (out, none) => (out, none)

/-- `buildHandlers` (mutableware.go): fold the stack, oldest first, each
handler wrapping the previously composed continuation, starting from the
terminal no-op.  The newest (last) stack entry therefore ends up
outermost. -/
def buildHandlers {Req Res} [Inhabited Res]
    (stack : List (IdentifiedHandler Req Res)) : CurriedHandlerFunc Req Res :=
  stack.foldl (fun acc ih => wrapOne ih acc) (nilCurriedHandlerFunc Req Res)

/-- `2 ^ 64`: the modulus of Go's `uint64`, the type of `nextID`. -/
def u64Mod : Nat := 18446744073709551616

/-- `builtAddOptions` (addOptions file): the data set by `AddOptionName`,
`AddOptionSwap` and `AddOptionLast`.  `swapID = 0` means no swap target. -/
structure AddOptions where
  name : String
  swapID : Nat
  last : Bool

/-- State of a `HandlerContainer` (mutableware.go): the stack of identified
handlers (oldest first), the capacity of the Go slice backing that stack
(needed because the `AddOptionLast` branch of `Add` discards the result of
`slices.Insert`, whose effect depends on spare capacity), and the `uint64`
next-ID counter.  The cached composed handler is not a field: every
mutation runs `defer hc.buildHandlers()`, so the cache always equals
`buildHandlers` of the current stack and `Handle` is modelled through that
invariant. -/
structure ContainerState (Req Res : Type) where
  stack : List (IdentifiedHandler Req Res)
  cap : Nat
  nextID : Nat

/-- `NewHandlerContainer` (mutableware.go): empty stack (a `[]T{}` literal,
so capacity 0) and `nextID = 10`. -/
def NewHandlerContainer (Req Res : Type) : ContainerState Req Res := ⟨[], 0, 10⟩

/-- `Add` (mutableware.go): allocate the next ID (the `uint64` counter
increments with wraparound), then either replace a present swap target in
place, or insert.  The `last` branch reproduces the source line
`slices.Insert(hc.stack, 0, idHandler)` whose result is discarded: per Go
slice semantics the `hc.stack` slice header (in particular its length) is
unchanged; when the backing array has spare capacity (`len+1 ≤ cap`)
`slices.Insert` shifts elements in place, so the elements visible through
`hc.stack` become `idHandler` followed by all but the last of the old
elements, and otherwise `slices.Insert` allocates a fresh array and
`hc.stack` is untouched.  A plain insert appends, growing capacity the way
Go's runtime does for small slices (doubling, with at least room for the
new element) when the array is full. -/
def Add {Req Res} (hc : ContainerState Req Res) (h : HandlerFunc Req Res)
    (opts : AddOptions) : ContainerState Req Res × Nat :=
  let id := hc.nextID
  let nid := (hc.nextID + 1) % u64Mod
  let idh : IdentifiedHandler Req Res := ⟨h, ⟨id, opts.name⟩⟩
  match (if opts.swapID = 0 then none
         else hc.stack.findIdx? (fun e => e.info.ID == opts.swapID)) with
  | some idx => (⟨hc.stack.set idx idh, hc.cap, nid⟩, id)
  | none =>
      if opts.last then
        if hc.stack.length + 1 ≤ hc.cap then
          (⟨(idh :: hc.stack).take hc.stack.length, hc.cap, nid⟩, id)
        else
          (⟨hc.stack, hc.cap, nid⟩, id)
      else
        (⟨hc.stack ++ [idh],
          if hc.stack.length < hc.cap then hc.cap
          else max (hc.stack.length + 1) (2 * hc.cap),
          nid⟩, id)

/-- `Remove` (mutableware.go): `slices.DeleteFunc` drops every entry whose
ID matches; the slice keeps its backing array, so capacity is unchanged. -/
def Remove {Req Res} (hc : ContainerState Req Res) (id : Nat) : ContainerState Req Res :=
  ⟨hc.stack.filter (fun e => !(e.info.ID == id)), hc.cap, hc.nextID⟩

/-- `Handle` (mutableware.go): run the cached composed chain, which by the
recompile-on-every-mutation invariant is `buildHandlers` of the stack. -/
def Handle {Req Res} [Inhabited Res] (hc : ContainerState Req Res)
    (ctx : Ctx) (req : Req) : Res × Option GoError :=
  buildHandlers hc.stack ctx req

/-- Claim C1.  The claim says `Add` with the `insertLast` option (and no
applicable swap target) inserts the new handler at the head of the backing
sequence so that it is invoked last.  The code instead discards the result
of `slices.Insert`: on a fresh container (capacity 0, so `slices.Insert`
reallocates and the discarded result is the only copy) the handler is never
added at all — the stack stays empty and a subsequent `Handle` returns the
zero response without ever invoking the handler. -/
theorem addOptionLast_drops_new_handler (Req Res : Type) [Inhabited Res]
    (h : HandlerFunc Req Res) (ctx : Ctx) (req : Req) :
    (Add (NewHandlerContainer Req Res) h ⟨"", 0, true⟩).fst.stack = []
    ∧ Handle (Add (NewHandlerContainer Req Res) h ⟨"", 0, true⟩).fst ctx req
        = (default, none) := by
  constructor
  · rfl
  · rfl

/-- The loop of `buildHandlers` processed one more (newest) stack entry:
folding over `stack ++ [ih]` wraps the fold over `stack` with `ih`, so the
newest entry is the outermost layer. -/
theorem buildHandlers_concat {Req Res} [Inhabited Res]
    (stack : List (IdentifiedHandler Req Res)) (ih : IdentifiedHandler Req Res) :
    buildHandlers (stack ++ [ih]) = wrapOne ih (buildHandlers stack) := by
  simp [buildHandlers, List.foldl_append]

/-- A handler that records its own invocation by prepending `i` to the
response list produced by the rest of the chain (used to observe invocation
order, like the writer handlers in the repository's tests). -/
def traceHandler (i : Nat) : HandlerFunc Unit (List Nat) :=
  fun cx msg next =>
    let r := next cx msg
    (i :: r.fst, r.snd)

/-- The stack of trace handlers with the given ids (oldest first). -/
def traceStack (ids : List Nat) : List (IdentifiedHandler Unit (List Nat)) :=
  ids.map (fun i => ⟨traceHandler i, ⟨i, ""⟩⟩)

theorem traceStack_fold (ids : List Nat) :
    ∀ (prev : CurriedHandlerFunc Unit (List Nat)) (b : List Nat),
      (∀ cx, prev cx () = (b, none)) →
      ∀ ctx, (traceStack ids).foldl (fun acc ih => wrapOne ih acc) prev ctx ()
        = (ids.reverse ++ b, none) := by
  induction ids with
  | nil =>
      intro prev b hb ctx
      simpa [traceStack] using hb ctx
  | cons i rest ih =>
      intro prev b hb ctx
      have hstep : ∀ cx, wrapOne ⟨traceHandler i, ⟨i, ""⟩⟩ prev cx () = (i :: b, none) := by
        intro cx
        simp [wrapOne, traceHandler, hb]
      have := ih (wrapOne ⟨traceHandler i, ⟨i, ""⟩⟩ prev) (i :: b) hstep ctx
      simpa [traceStack, List.foldl_cons] using this

/-- Claim C3.  The compiled chain invokes handlers newest-added-first: over
a stack of handlers added in order `ids` (oldest first, as plain `Add`
appends them), the chain's observed invocation order is `ids.reverse` —
the most recently added handler runs first — and the base of the
recursion is the terminal no-op, which contributes the zero response. -/
theorem handle_invokes_newest_added_first (ids : List Nat) (ctx : Ctx) :
    buildHandlers (traceStack ids) ctx () = (ids.reverse, none) := by
  have := traceStack_fold ids (nilCurriedHandlerFunc Unit (List Nat)) []
    (fun cx => rfl) ctx
  simpa [buildHandlers] using this

/-- A handler that records the handler-info stack it observes through its
context by prepending it to the response produced by the rest of the chain
(like the context-capturing handlers in the repository's `TestContext`). -/
def stackRecordingHandler : HandlerFunc Unit (List (List HandlerInfo)) :=
  fun cx msg next =>
    let r := next cx msg
    (GetHandlerInfoFromContext cx :: r.fst, r.snd)

/-- The container after `Add`-ing handler X with name "a" (it gets ID 10). -/
def containerWithA : ContainerState Unit (List (List HandlerInfo)) :=
  (Add (NewHandlerContainer Unit (List (List HandlerInfo)))
    stackRecordingHandler ⟨"a", 0, false⟩).fst

/-- The container after further `Add`-ing handler Y with name "b" (ID 11). -/
def containerWithAB : ContainerState Unit (List (List HandlerInfo)) :=
  (Add containerWithA stackRecordingHandler ⟨"b", 0, false⟩).fst

/-- Claim C7.  Concrete stack observation: with X (name "a", assigned ID 10)
added before Y (name "b", assigned ID 11), both via plain `Add`, a `Handle`
call lets Y observe exactly `[{11, b}]` and — since Y calls through — X
observe exactly `[{11, b}, {10, a}]`; a context that never passed through a
handler yields an empty stack. -/
theorem concrete_stack_observation :
    Handle containerWithAB none ()
      = ([[⟨11, "b"⟩], [⟨11, "b"⟩, ⟨10, "a"⟩]], none)
    ∧ GetHandlerInfoFromContext (none : Ctx) = [] := by
  constructor
  · rfl
  · rfl

/-- `errors.Is` matches an error against itself. -/
theorem errorIs_self (e : GoError) : errorIs e e = true := by
  cases e <;> simp [errorIs]

/-- An error wrapped with the `ErrHandle` sentinel satisfies the sentinel
under `errors.Is` (the `fmt.Errorf` wrap carries `ErrHandle` via `%w`). -/
theorem errorIs_wrap_sentinel (i : HandlerInfo) (c : GoError) :
    errorIs (GoError.wrapHandler ErrHandle i c) ErrHandle = true := by
  simp [errorIs, ErrHandle]

/-- Every error surfaced by one wrapped layer of the chain satisfies the
`ErrHandle` sentinel: the wrapper either passes through an already-tagged
error or tags the untagged one itself. -/
theorem wrapOne_error_tagged {Req Res} (ih : IdentifiedHandler Req Res)
    (prev : CurriedHandlerFunc Req Res) (ctx : Ctx) (req : Req)
    (out : Res) (e : GoError)
    (hres : wrapOne ih prev ctx req = (out, some e)) :
    errorIs e ErrHandle = true := by
  unfold wrapOne at hres
  rcases hcall : ih.handle (contextWithHandlerInfo ctx ih.info) req prev with ⟨o, err⟩
  rw [hcall] at hres
  cases err with
  | none => simp at hres
  | some e0 =>
      by_cases htag : errorIs e0 ErrHandle = true
      · simp [htag] at hres
        rw [← hres.2]
        exact htag
      · simp [htag] at hres
        rw [← hres.2]
        exact errorIs_wrap_sentinel ih.info e0

/-- Claim C4.  Only-innermost tagging: if the inner chain (reached through
outer handler A's continuation) surfaces an error — necessarily already
tagged with the `ErrHandle` sentinel by the frame of the failing handler —
and A (a pass-through handler with identity `infoA`) returns it unchanged,
then the composed chain surfaces exactly that error, without wrapping it
again, so the attributed identity stays that of the inner handler, not A's. -/
theorem inner_tagged_error_passes_through {Req Res} [Inhabited Res]
    (s : List (IdentifiedHandler Req Res)) (infoA : HandlerInfo)
    (ctx : Ctx) (req : Req) (out : Res) (e : GoError)
    (hinner : buildHandlers s (contextWithHandlerInfo ctx infoA) req = (out, some e)) :
    buildHandlers (s ++ [⟨nilHandlerFunc, infoA⟩]) ctx req = (out, some e) := by
  have htag : errorIs e ErrHandle = true := by
    rcases List.eq_nil_or_concat s with hnil | ⟨L, b, hcon⟩
    · rw [hnil] at hinner
      simp [buildHandlers, nilCurriedHandlerFunc] at hinner
    · rw [hcon, List.concat_eq_append, buildHandlers_concat] at hinner
      exact wrapOne_error_tagged b _ _ _ _ _ hinner
  rw [buildHandlers_concat]
  simp [wrapOne, nilHandlerFunc, hinner, htag]

/-- Handler B of the C4 witness: fails with a plain (untagged) error. -/
def failingHandlerB : HandlerFunc Unit Unit :=
  fun _ _ _ => ((), some (GoError.base 2 "boom"))

theorem inner_tagged_error_passes_through_witness :
    buildHandlers ([⟨failingHandlerB, ⟨11, "b"⟩⟩] ++ [⟨nilHandlerFunc, ⟨12, "a"⟩⟩])
        none ()
      = ((), some (GoError.wrapHandler ErrHandle ⟨11, "b"⟩ (GoError.base 2 "boom"))) :=
  inner_tagged_error_passes_through [⟨failingHandlerB, ⟨11, "b"⟩⟩] ⟨12, "a"⟩
    none () () (GoError.wrapHandler ErrHandle ⟨11, "b"⟩ (GoError.base 2 "boom"))
    (by decide)

/-- Claim C5.  A handler returning a non-nil error `e` not yet satisfying
the `ErrHandle` sentinel surfaces through the chain wrapped exactly once
with the sentinel and the handler's identity: the wrapped error satisfies
both the sentinel and the original error under `errors.Is`, and its message
is `"handleError handler=<id> <original>"` without a name and
`"handleError handler=<id>(<name>) <original>"` with one. -/
theorem untagged_error_wrapped_once {Req Res} [Inhabited Res]
    (s : List (IdentifiedHandler Req Res)) (h : HandlerFunc Req Res)
    (info : HandlerInfo) (ctx : Ctx) (req : Req) (out : Res) (e : GoError)
    (hret : h (contextWithHandlerInfo ctx info) req (buildHandlers s) = (out, some e))
    (huntagged : errorIs e ErrHandle = false) :
    buildHandlers (s ++ [⟨h, info⟩]) ctx req
      = (out, some (GoError.wrapHandler ErrHandle info e))
    ∧ errorIs (GoError.wrapHandler ErrHandle info e) ErrHandle = true
    ∧ errorIs (GoError.wrapHandler ErrHandle info e) e = true
    ∧ errMessage (GoError.wrapHandler ErrHandle info e)
        = (if info.Name = "" then "handleError handler=" ++ Nat.repr info.ID
           else "handleError handler=" ++ Nat.repr info.ID ++ "(" ++ info.Name ++ ")")
          ++ " " ++ errMessage e := by
  refine ⟨?_, errorIs_wrap_sentinel info e, ?_, ?_⟩
  · rw [buildHandlers_concat]
    simp [wrapOne, hret, huntagged]
  · simp [errorIs, errorIs_self]
  · by_cases hn : info.Name = "" <;>
      simp [errMessage, infoString, ErrHandle, hn, String.append_assoc]

/-- Handler H of the C5 witness: fails with the plain error `an_error`
(mirrors the repository's `TestHandleErr`, where the surfaced message is
`handleError handler=11 an_error`). -/
def failingHandlerH : HandlerFunc Unit Unit :=
  fun _ _ _ => ((), some (GoError.base 2 "an_error"))

theorem untagged_error_wrapped_once_witness :
    buildHandlers ([] ++ [⟨failingHandlerH, ⟨11, ""⟩⟩]) none ()
      = ((), some (GoError.wrapHandler ErrHandle ⟨11, ""⟩ (GoError.base 2 "an_error")))
    ∧ errorIs (GoError.wrapHandler ErrHandle ⟨11, ""⟩ (GoError.base 2 "an_error"))
        ErrHandle = true
    ∧ errorIs (GoError.wrapHandler ErrHandle ⟨11, ""⟩ (GoError.base 2 "an_error"))
        (GoError.base 2 "an_error") = true
    ∧ errMessage (GoError.wrapHandler ErrHandle ⟨11, ""⟩ (GoError.base 2 "an_error"))
        = (if HandlerInfo.Name ⟨11, ""⟩ = "" then
             "handleError handler=" ++ Nat.repr (HandlerInfo.ID ⟨11, ""⟩)
           else "handleError handler=" ++ Nat.repr (HandlerInfo.ID ⟨11, ""⟩)
             ++ "(" ++ HandlerInfo.Name ⟨11, ""⟩ ++ ")")
          ++ " " ++ errMessage (GoError.base 2 "an_error") :=
  untagged_error_wrapped_once [] failingHandlerH ⟨11, ""⟩ none () ()
    (GoError.base 2 "an_error") rfl (by decide)

/-- Claim C10.  When a handler returns a non-nil response together with a
non-nil untagged error, the composed chain keeps that response value
unchanged alongside the wrapped error — the response component is not
replaced by the zero value on the error path. -/
theorem error_path_keeps_response {Req Res} [Inhabited Res]
    (s : List (IdentifiedHandler Req Res)) (h : HandlerFunc Req Res)
    (info : HandlerInfo) (ctx : Ctx) (req : Req) (out : Res) (e : GoError)
    (hret : h (contextWithHandlerInfo ctx info) req (buildHandlers s) = (out, some e))
    (huntagged : errorIs e ErrHandle = false) :
    (buildHandlers (s ++ [⟨h, info⟩]) ctx req).fst = out
    ∧ (buildHandlers (s ++ [⟨h, info⟩]) ctx req).snd
        = some (GoError.wrapHandler ErrHandle info e) := by
  rw [buildHandlers_concat]
  constructor <;> simp [wrapOne, hret, huntagged]

/-- The C10 witness handler: a non-zero response `42` next to an error. -/
def respAndErrHandler : HandlerFunc Unit Nat :=
  fun _ _ _ => (42, some (GoError.base 3 "late failure"))

theorem error_path_keeps_response_witness :
    (buildHandlers ([] ++ [⟨respAndErrHandler, ⟨10, ""⟩⟩]) none ()).fst = 42
    ∧ (buildHandlers ([] ++ [⟨respAndErrHandler, ⟨10, ""⟩⟩]) none ()).snd
        = some (GoError.wrapHandler ErrHandle ⟨10, ""⟩ (GoError.base 3 "late failure")) :=
  error_path_keeps_response [] respAndErrHandler ⟨10, ""⟩ none () 42
    (GoError.base 3 "late failure") rfl (by decide)

/-- Claim C6.  Swap semantics of `Add`: when the (non-zero) swap target is
present, with `slices.IndexFunc` locating it at position `k`, the new
handler (carrying the freshly assigned ID `hc.nextID` and the given name)
replaces the entry at position `k` in place — chain length and all other
positions are unchanged.  When the target is absent, `Add` behaves exactly
as if it had been called without the swap option. -/
theorem swap_replaces_in_place {Req Res} (hc : ContainerState Req Res)
    (h : HandlerFunc Req Res) (opts : AddOptions) (hswap : opts.swapID ≠ 0) :
    (∀ k, hc.stack.findIdx? (fun e => e.info.ID == opts.swapID) = some k →
      (Add hc h opts).fst.stack.length = hc.stack.length
      ∧ (Add hc h opts).fst.stack[k]? = some ⟨h, ⟨hc.nextID, opts.name⟩⟩
      ∧ ∀ j, j ≠ k → (Add hc h opts).fst.stack[j]? = hc.stack[j]?)
    ∧ (hc.stack.findIdx? (fun e => e.info.ID == opts.swapID) = none →
      Add hc h opts = Add hc h ⟨opts.name, 0, opts.last⟩) := by
  constructor
  · intro k hk
    have hstack : (Add hc h opts).fst.stack
        = hc.stack.set k ⟨h, ⟨hc.nextID, opts.name⟩⟩ := by
      simp only [Add]
      rw [if_neg hswap, hk]
    obtain ⟨hklen, -, -⟩ := List.findIdx?_eq_some_iff_getElem.mp hk
    refine ⟨?_, ?_, ?_⟩
    · rw [hstack]; exact List.length_set hc.stack k _
    · rw [hstack]; exact List.getElem?_set_self hklen
    · intro j hj
      rw [hstack]
      exact List.getElem?_set_ne (fun hkj => hj hkj.symm)
  · intro hnone
    simp only [Add]
    rw [if_neg hswap, hnone]
    simp

/-- Concrete two-handler container used by the C6 witness: handlers with
IDs 10 and 11, backing capacity 2, next ID 12. -/
def swapWitnessContainer : ContainerState Unit Unit :=
  ⟨[⟨nilHandlerFunc, ⟨10, "x"⟩⟩, ⟨nilHandlerFunc, ⟨11, "y"⟩⟩], 2, 12⟩

theorem swap_replaces_in_place_witness :
    (Add swapWitnessContainer nilHandlerFunc ⟨"new", 10, false⟩).fst.stack.length
        = swapWitnessContainer.stack.length
    ∧ (Add swapWitnessContainer nilHandlerFunc ⟨"new", 10, false⟩).fst.stack[0]?
        = some ⟨nilHandlerFunc, ⟨12, "new"⟩⟩
    ∧ (Add swapWitnessContainer nilHandlerFunc ⟨"new", 10, false⟩).fst.stack[1]?
        = swapWitnessContainer.stack[1]?
    ∧ Add swapWitnessContainer nilHandlerFunc ⟨"z", 99, false⟩
        = Add swapWitnessContainer nilHandlerFunc ⟨"z", 0, false⟩ := by
  obtain ⟨hlen, hat, hother⟩ :=
    (swap_replaces_in_place swapWitnessContainer nilHandlerFunc ⟨"new", 10, false⟩
      (by decide)).1 0 (by rfl)
  exact ⟨hlen, hat, hother 1 (by decide),
    (swap_replaces_in_place swapWitnessContainer nilHandlerFunc ⟨"z", 99, false⟩
      (by decide)).2 (by rfl)⟩

/-- Claim C9.  `Remove` of an ID not present in the sequence is a no-op:
the container state (stack, capacity, next-ID counter) is unchanged — and
with it the behaviour of every subsequent `Handle` call — and `Remove`
reports no error (it has no error result at all). -/
theorem remove_absent_id_noop {Req Res} [Inhabited Res] (hc : ContainerState Req Res)
    (id : Nat) (habs : ∀ e ∈ hc.stack, e.info.ID ≠ id) :
    Remove hc id = hc
    ∧ ∀ ctx req, Handle (Remove hc id) ctx req = Handle hc ctx req := by
  have hstack : hc.stack.filter (fun e => !(e.info.ID == id)) = hc.stack :=
    List.filter_eq_self.mpr (by intro a ha; simpa using habs a ha)
  have hrem : Remove hc id = hc := by
    unfold Remove
    rw [hstack]
  exact ⟨hrem, fun ctx req => by rw [hrem]⟩

/-- Concrete one-handler container used by the C9 witness. -/
def removeWitnessContainer : ContainerState Unit Unit :=
  ⟨[⟨nilHandlerFunc, ⟨10, ""⟩⟩], 1, 11⟩

theorem remove_absent_id_noop_witness :
    Remove removeWitnessContainer 99 = removeWitnessContainer
    ∧ Handle (Remove removeWitnessContainer 99) none ()
        = Handle removeWitnessContainer none () :=
  ⟨(remove_absent_id_noop removeWitnessContainer 99 (by decide)).1,
   (remove_absent_id_noop removeWitnessContainer 99 (by decide)).2 none ()⟩

/-- One mutation of a container: the argument list of one `Add` or one
`Remove` call. -/
inductive Op (Req Res : Type) where
  | add : HandlerFunc Req Res → AddOptions → Op Req Res
  | remove : Nat → Op Req Res

/-- Apply one mutation to the container state. -/
def applyOp {Req Res} (hc : ContainerState Req Res) : Op Req Res → ContainerState Req Res
  | Op.add h o => (Add hc h o).fst
  | Op.remove id => Remove hc id

/-- The container state after a sequence of mutations. -/
def run {Req Res} (hc : ContainerState Req Res) (ops : List (Op Req Res)) :
    ContainerState Req Res :=
  ops.foldl applyOp hc

/-- The `HandlerID`s returned by the `Add` calls of a mutation sequence,
in call order. -/
def returned {Req Res} : ContainerState Req Res → List (Op Req Res) → List Nat
  | _, [] => []
  | hc, Op.add h o :: ops => (Add hc h o).snd :: returned (Add hc h o).fst ops
  | hc, Op.remove id :: ops => returned (Remove hc id) ops

/-- Number of `Add` calls in a mutation sequence. -/
def addCount {Req Res} : List (Op Req Res) → Nat
  | [] => 0
  | Op.add _ _ :: ops => addCount ops + 1
  | Op.remove _ :: ops => addCount ops

/-- The IDs of the handlers present in the container's sequence. -/
def stackIDs {Req Res} (hc : ContainerState Req Res) : List Nat :=
  hc.stack.map (fun e => e.info.ID)

/-- `Add` returns the current value of the next-ID counter. -/
theorem Add_snd {Req Res} (hc : ContainerState Req Res) (h : HandlerFunc Req Res)
    (o : AddOptions) : (Add hc h o).snd = hc.nextID := by
  simp only [Add]
  split
  · rfl
  · split
    · split <;> rfl
    · rfl

/-- `Add` advances the next-ID counter by one, wrapping at `2 ^ 64`. -/
theorem Add_nextID {Req Res} (hc : ContainerState Req Res) (h : HandlerFunc Req Res)
    (o : AddOptions) : (Add hc h o).fst.nextID = (hc.nextID + 1) % u64Mod := by
  simp only [Add]
  split
  · rfl
  · split
    · split <;> rfl
    · rfl

/-- The four possible shapes of the stack after an `Add`: swap in place,
the discarded in-place `slices.Insert` (shift), the discarded reallocating
`slices.Insert` (unchanged), or a plain append. -/
theorem Add_stack_cases {Req Res} (hc : ContainerState Req Res) (h : HandlerFunc Req Res)
    (o : AddOptions) :
    (∃ k, (Add hc h o).fst.stack = hc.stack.set k ⟨h, ⟨hc.nextID, o.name⟩⟩)
    ∨ (Add hc h o).fst.stack
        = (⟨h, ⟨hc.nextID, o.name⟩⟩ :: hc.stack).take hc.stack.length
    ∨ (Add hc h o).fst.stack = hc.stack
    ∨ (Add hc h o).fst.stack = hc.stack ++ [⟨h, ⟨hc.nextID, o.name⟩⟩] := by
  simp only [Add]
  split
  · exact Or.inl ⟨_, rfl⟩
  · split
    · split
      · exact Or.inr (Or.inl rfl)
      · exact Or.inr (Or.inr (Or.inl rfl))
    · exact Or.inr (Or.inr (Or.inr rfl))

/-- Replacing one entry of a duplicate-free list by a fresh value keeps it
duplicate-free. -/
theorem nodup_set_of_not_mem {α : Type} : ∀ (l : List α) (i : Nat) (a : α),
    l.Nodup → a ∉ l → (l.set i a).Nodup := by
  intro l
  induction l with
  | nil => intro i a _ _; simp
  | cons x xs ih =>
      intro i a hnd hna
      cases i with
      | zero =>
          rw [List.set_cons_zero, List.nodup_cons] at *
          exact ⟨fun hmem => hna (List.mem_cons_of_mem x hmem), hnd.2⟩
      | succ n =>
          rw [List.set_cons_succ]
          rw [List.nodup_cons] at hnd ⊢
          refine ⟨?_, ih n a hnd.2 (fun hm => hna (List.mem_cons_of_mem x hm))⟩
          intro hmem
          rcases List.mem_or_eq_of_mem_set hmem with hx | hxa
          · exact hnd.1 hx
          · exact hna (by rw [hxa]; exact List.mem_cons_self a xs)

/-- The ID multiset after an `Add` only contains old IDs and the fresh one. -/
theorem mem_stackIDs_Add {Req Res} (hc : ContainerState Req Res)
    (h : HandlerFunc Req Res) (o : AddOptions) (i : Nat)
    (hi : i ∈ stackIDs (Add hc h o).fst) : i ∈ stackIDs hc ∨ i = hc.nextID := by
  rcases Add_stack_cases hc h o with ⟨k, hs⟩ | hs | hs | hs <;>
    rw [stackIDs, hs] at hi
  · rw [List.map_set] at hi
    exact List.mem_or_eq_of_mem_set hi
  · rw [List.map_take, List.map_cons] at hi
    rcases List.mem_cons.mp (List.take_subset _ _ hi) with hie | hie
    · exact Or.inr hie
    · exact Or.inl hie
  · exact Or.inl hi
  · rw [List.map_append] at hi
    rcases List.mem_append.mp hi with hie | hie
    · exact Or.inl hie
    · exact Or.inr (List.mem_singleton.mp (by simpa using hie))

/-- An `Add` with a fresh next ID preserves duplicate-freedom of the
stack's IDs. -/
theorem nodup_stackIDs_Add {Req Res} (hc : ContainerState Req Res)
    (h : HandlerFunc Req Res) (o : AddOptions)
    (hnd : (stackIDs hc).Nodup) (hfresh : hc.nextID ∉ stackIDs hc) :
    (stackIDs (Add hc h o).fst).Nodup := by
  rcases Add_stack_cases hc h o with ⟨k, hs⟩ | hs | hs | hs <;>
    rw [stackIDs, hs]
  · rw [List.map_set]
    exact nodup_set_of_not_mem _ k _ hnd hfresh
  · rw [List.map_take, List.map_cons]
    exact (List.take_sublist _ _).nodup (List.nodup_cons.mpr ⟨hfresh, hnd⟩)
  · exact hnd
  · rw [List.map_append]
    simp only [List.nodup_append, List.map_cons, List.map_nil]
    exact ⟨hnd, List.nodup_singleton _, by
      intro a ha hb
      simp only [List.mem_singleton] at hb
      exact hfresh (hb ▸ ha)⟩

/-- `Remove` only deletes: the surviving IDs form a sublist. -/
theorem stackIDs_Remove_sublist {Req Res} (hc : ContainerState Req Res) (id : Nat) :
    List.Sublist (stackIDs (Remove hc id)) (stackIDs hc) :=
  (List.filter_sublist _).map _

/-- Invariant of any mutation sequence that does not wrap the `uint64`
next-ID counter: the counter advances by one per `Add`, the stack's IDs
stay duplicate-free and inside `[10, nextID)`, and the returned IDs are
strictly increasing, all of them at least the starting counter value. -/
theorem run_invariant {Req Res} :
    ∀ (ops : List (Op Req Res)) (s : ContainerState Req Res),
    (∀ i ∈ stackIDs s, i < s.nextID) → (stackIDs s).Nodup →
    (∀ i ∈ stackIDs s, 10 ≤ i) → 10 ≤ s.nextID →
    s.nextID + addCount ops < u64Mod →
    ((run s ops).nextID = s.nextID + addCount ops
     ∧ (stackIDs (run s ops)).Nodup
     ∧ (∀ i ∈ stackIDs (run s ops), i < (run s ops).nextID)
     ∧ (∀ i ∈ stackIDs (run s ops), 10 ≤ i)
     ∧ (returned s ops).Pairwise (fun a b => a < b)
     ∧ (∀ x ∈ returned s ops, s.nextID ≤ x)) := by
  intro ops
  induction ops with
  | nil =>
      intro s h1 h2 h3 h4 h5
      refine ⟨by simp [run, addCount], by simpa [run], by simpa [run],
        by simpa [run], by simp [returned], by simp [returned]⟩
  | cons op ops ih =>
      intro s h1 h2 h3 h4 h5
      cases op with
      | add h o =>
          have hcount : addCount (Op.add h o :: ops) = addCount ops + 1 := rfl
          rw [hcount] at h5
          have hnowrap : s.nextID + 1 < u64Mod := by omega
          have hnid : (Add s h o).fst.nextID = s.nextID + 1 := by
            rw [Add_nextID]
            exact Nat.mod_eq_of_lt hnowrap
          have hfresh : s.nextID ∉ stackIDs s := fun hmem =>
            absurd (h1 _ hmem) (by omega)
          have h1' : ∀ i ∈ stackIDs (Add s h o).fst, i < (Add s h o).fst.nextID := by
            intro i hi
            rw [hnid]
            rcases mem_stackIDs_Add s h o i hi with hie | hie
            · exact Nat.lt_trans (h1 i hie) (by omega)
            · omega
          have h2' : (stackIDs (Add s h o).fst).Nodup :=
            nodup_stackIDs_Add s h o h2 hfresh
          have h3' : ∀ i ∈ stackIDs (Add s h o).fst, 10 ≤ i := by
            intro i hi
            rcases mem_stackIDs_Add s h o i hi with hie | hie
            · exact h3 i hie
            · omega
          have h4' : 10 ≤ (Add s h o).fst.nextID := by omega
          have h5' : (Add s h o).fst.nextID + addCount ops < u64Mod := by
            rw [hnid]; omega
          obtain ⟨c1, c2, c3, c4, c5, c6⟩ := ih (Add s h o).fst h1' h2' h3' h4' h5'
          have hrun : run s (Op.add h o :: ops) = run (Add s h o).fst ops := rfl
          have hret : returned s (Op.add h o :: ops)
              = (Add s h o).snd :: returned (Add s h o).fst ops := rfl
          refine ⟨?_, by rwa [hrun], by rwa [hrun], by rwa [hrun], ?_, ?_⟩
          · rw [hrun, c1, hnid, hcount]; omega
          · rw [hret, List.pairwise_cons]
            refine ⟨?_, c5⟩
            intro x hx
            have := c6 x hx
            rw [Add_snd]
            omega
          · intro x hx
            rw [hret] at hx
            rcases List.mem_cons.mp hx with hxe | hxe
            · rw [hxe, Add_snd]
            · have := c6 x hxe
              omega
      | remove id =>
          have hcount : addCount (Op.remove id :: ops) = addCount ops := rfl
          rw [hcount] at h5
          have hsub := stackIDs_Remove_sublist s id
          have hnid : (Remove s id).nextID = s.nextID := rfl
          have h1' : ∀ i ∈ stackIDs (Remove s id), i < (Remove s id).nextID :=
            fun i hi => h1 i (hsub.subset hi)
          have h2' : (stackIDs (Remove s id)).Nodup := hsub.nodup h2
          have h3' : ∀ i ∈ stackIDs (Remove s id), 10 ≤ i :=
            fun i hi => h3 i (hsub.subset hi)
          obtain ⟨c1, c2, c3, c4, c5, c6⟩ :=
            ih (Remove s id) h1' h2' h3' h4 (by rw [hnid]; omega)
          have hrun : run s (Op.remove id :: ops) = run (Remove s id) ops := rfl
          have hret : returned s (Op.remove id :: ops) = returned (Remove s id) ops := rfl
          refine ⟨?_, by rwa [hrun], by rwa [hrun], by rwa [hrun], by rwa [hret], ?_⟩
          · rw [hrun, c1, hnid, hcount]
          · intro x hx
            rw [hret] at hx
            exact c6 x hx

/-- Claim C8, amended with the wraparound proviso.  As long as fewer than
`2 ^ 64 - 10` Adds have been performed (so the `uint64` next-ID counter has
not wrapped): the counter starts at the reserved non-zero base 10, every
`Add` returns an ID strictly greater than every previously returned ID of
the container (the returned IDs are strictly increasing, so no ID is ever
reused, even after `Remove`), all IDs are at least the non-zero base, and
the IDs present in the sequence are pairwise distinct at all times (the
state after any mutation sequence is the state after some `ops`). -/
theorem ids_monotone_unique_below_wrap {Req Res} (ops : List (Op Req Res))
    (hwrap : 10 + addCount ops < u64Mod) :
    (NewHandlerContainer Req Res).nextID = 10
    ∧ (returned (NewHandlerContainer Req Res) ops).Pairwise (fun a b => a < b)
    ∧ (∀ x ∈ returned (NewHandlerContainer Req Res) ops, 10 ≤ x)
    ∧ (stackIDs (run (NewHandlerContainer Req Res) ops)).Nodup
    ∧ (∀ i ∈ stackIDs (run (NewHandlerContainer Req Res) ops),
        10 ≤ i ∧ i < (run (NewHandlerContainer Req Res) ops).nextID) := by
  obtain ⟨c1, c2, c3, c4, c5, c6⟩ := run_invariant ops (NewHandlerContainer Req Res)
    (by intro i hi; simp [stackIDs, NewHandlerContainer] at hi)
    (by simp [stackIDs, NewHandlerContainer])
    (by intro i hi; simp [stackIDs, NewHandlerContainer] at hi)
    (by simp [NewHandlerContainer])
    hwrap
  exact ⟨rfl, c5, c6, c2, fun i hi => ⟨c4 i hi, c3 i hi⟩⟩

/-- Concrete mutation sequence for the C8 witness: two Adds, then a Remove
of the first returned ID. -/
def c8ops : List (Op Unit Unit) :=
  [Op.add nilHandlerFunc ⟨"", 0, false⟩, Op.add nilHandlerFunc ⟨"", 0, false⟩,
   Op.remove 10]

theorem ids_monotone_unique_below_wrap_witness :
    (NewHandlerContainer Unit Unit).nextID = 10
    ∧ (returned (NewHandlerContainer Unit Unit) c8ops).Pairwise (fun a b => a < b)
    ∧ (∀ x ∈ returned (NewHandlerContainer Unit Unit) c8ops, 10 ≤ x)
    ∧ (stackIDs (run (NewHandlerContainer Unit Unit) c8ops)).Nodup
    ∧ (∀ i ∈ stackIDs (run (NewHandlerContainer Unit Unit) c8ops),
        10 ≤ i ∧ i < (run (NewHandlerContainer Unit Unit) c8ops).nextID) :=
  ids_monotone_unique_below_wrap c8ops (by decide)

/-- A mutation sequence of `2 ^ 64` plain Adds: enough to wrap the `uint64`
next-ID counter exactly once. -/
def wrapOps : List (Op Unit Unit) :=
  List.replicate u64Mod (Op.add nilHandlerFunc ⟨"", 0, false⟩)

theorem run_replicate_add_nextID :
    ∀ (k : Nat) (s : ContainerState Unit Unit),
    (run s (List.replicate (k + 1) (Op.add nilHandlerFunc ⟨"", 0, false⟩))).nextID
      = (s.nextID + (k + 1)) % u64Mod := by
  intro k
  induction k with
  | zero =>
      intro s
      show (Add s nilHandlerFunc ⟨"", 0, false⟩).fst.nextID = (s.nextID + 1) % u64Mod
      exact Add_nextID s nilHandlerFunc ⟨"", 0, false⟩
  | succ n ih =>
      intro s
      rw [List.replicate_succ]
      have hstep : run s (Op.add nilHandlerFunc ⟨"", 0, false⟩
            :: List.replicate (n + 1) (Op.add nilHandlerFunc ⟨"", 0, false⟩))
          = run (Add s nilHandlerFunc ⟨"", 0, false⟩).fst
              (List.replicate (n + 1) (Op.add nilHandlerFunc ⟨"", 0, false⟩)) := rfl
      rw [hstep, ih, Add_nextID]
      simp only [u64Mod]
      omega

/-- Claim C8 as stated is false on the code: the next-ID counter is a Go
`uint64` incremented with silent wraparound, so after `2 ^ 64` Adds the
counter is back at 10 and the next `Add` returns ID 10 again — the very
ID returned by the first `Add` of the same call sequence (the first
element of `wrapOps` is that same plain `Add`).  IDs are therefore reused
and monotonicity fails once the counter wraps. -/
theorem id_reused_after_counter_wrap :
    (Add (NewHandlerContainer Unit Unit) nilHandlerFunc ⟨"", 0, false⟩).snd = 10
    ∧ (Add (run (NewHandlerContainer Unit Unit) wrapOps)
        nilHandlerFunc ⟨"", 0, false⟩).snd = 10 := by
  constructor
  · rfl
  · have hn : (run (NewHandlerContainer Unit Unit) wrapOps).nextID = 10 := by
      have hrepl := run_replicate_add_nextID (u64Mod - 1) (NewHandlerContainer Unit Unit)
      have he : u64Mod - 1 + 1 = u64Mod := by simp [u64Mod]
      rw [he] at hrepl
      rw [wrapOps, hrepl]
      show (10 + u64Mod) % u64Mod = 10
      rfl
    rw [Add_snd, hn]

namespace SliceModel

/-!
Go-slice-level model of the handler-info stacks of ctx.go, with explicit
backing arrays and capacities.  `contextWithHandlerInfo` extends the
parent's stack with Go's `append`, which reuses the shared backing array
when it has spare capacity (mutating it in place) and only otherwise
allocates.  Capacity growth on reallocation follows Go's runtime for small
slices: at least room for the new element, otherwise doubled — in
particular a stack built by nested extensions from an empty context reaches
length 3 with capacity 4, at which point further extensions are in place.
-/

/-- A Go slice header: backing-array id, length, capacity. -/
structure Slice where
  arr : Nat
  len : Nat
  cap : Nat
deriving DecidableEq

/-- The heap of backing arrays (id = index).  Arrays are stored at their
full capacity; cells not yet written hold the zero `HandlerInfo`. -/
abbrev Heap := List (List HandlerInfo)

/-- The elements visible through a slice header. -/
def readSlice (h : Heap) (s : Slice) : List HandlerInfo :=
  (h.getD s.arr []).take s.len

/-- Go `append(s, x)` for one element: write into the shared backing array
when capacity allows, otherwise allocate a fresh array (copying the visible
elements) with grown capacity. -/
def goAppend (h : Heap) (s : Slice) (x : HandlerInfo) : Heap × Slice :=
  if s.len < s.cap then
    (h.set s.arr ((h.getD s.arr []).set s.len x), ⟨s.arr, s.len + 1, s.cap⟩)
  else
    (h ++ [(readSlice h s ++ [x])
            ++ List.replicate (max (s.len + 1) (2 * s.cap) - (s.len + 1)) ⟨0, ""⟩],
     ⟨h.length, s.len + 1, max (s.len + 1) (2 * s.cap)⟩)

/-- A context at slice level: the attached stack slice, if any. -/
abbrev Ctx := Option Slice

/-- `contextWithHandlerInfo` (ctx.go) at slice level: `append(stack, info)`
on the parent's stack, or the fresh one-element slice literal
`[]HandlerInfo{info}` (capacity 1). -/
def contextWithHandlerInfo (h : Heap) (parent : Ctx) (info : HandlerInfo) :
    Heap × Slice :=
  match parent with
  | some s => goAppend h s info
  | none => (h ++ [[info]], ⟨h.length, 1, 1⟩)

/-- `GetHandlerInfoFromContext` (ctx.go) at slice level. -/
def GetHandlerInfoFromContext (h : Heap) (c : Ctx) : List HandlerInfo :=
  match c with
  | some s => readSlice h s
  | none => []

/-- Three nested extensions from an empty context, as three nested handler
frames perform them; the third stack has length 3 in an array of
capacity 4. -/
def nest1 : Heap × Slice := contextWithHandlerInfo [] none ⟨1, ""⟩

def nest2 : Heap × Slice := contextWithHandlerInfo nest1.fst (some nest1.snd) ⟨2, ""⟩

def nest3 : Heap × Slice := contextWithHandlerInfo nest2.fst (some nest2.snd) ⟨3, ""⟩

/-- First sibling extension of the depth-3 context, with info `{4, a}`. -/
def siblingA : Heap × Slice := contextWithHandlerInfo nest3.fst (some nest3.snd) ⟨4, "a"⟩

/-- Second sibling extension of the same parent, with info `{5, b}`. -/
def siblingB : Heap × Slice := contextWithHandlerInfo siblingA.fst (some nest3.snd) ⟨5, "b"⟩

/-- Claim C2, evaluated on the code: two sibling extensions of the same
parent context interfere.  After extending the depth-3 parent with
`{4, a}`, the child observes its correct stack; but the second sibling
extension of the same parent with `{5, b}` writes through the shared
backing array (spare capacity, so Go's `append` mutates in place), after
which the first child's observed stack ends in `{5, b}` instead of
`{4, a}`.  The parent's own view stays intact, which shows the mutation is
exactly the sibling-visible one the spec rules out. -/
theorem sibling_extension_mutates_visible_stack :
    GetHandlerInfoFromContext siblingA.fst (some siblingA.snd)
      = [⟨1, ""⟩, ⟨2, ""⟩, ⟨3, ""⟩, ⟨4, "a"⟩]
    ∧ GetHandlerInfoFromContext siblingB.fst (some nest3.snd)
      = [⟨1, ""⟩, ⟨2, ""⟩, ⟨3, ""⟩]
    ∧ GetHandlerInfoFromContext siblingB.fst (some siblingA.snd)
      = [⟨1, ""⟩, ⟨2, ""⟩, ⟨3, ""⟩, ⟨5, "b"⟩]
    ∧ GetHandlerInfoFromContext siblingB.fst (some siblingA.snd)
      ≠ [⟨1, ""⟩, ⟨2, ""⟩, ⟨3, ""⟩, ⟨4, "a"⟩] := by
  decide

end SliceModel

end Mutableware
